/-
Verification of the cw1155-base balance-and-approval ledger
(contracts/cw1155-base/src/execute.rs) against its specification.

The contract state is embedded shallowly: the four cw-storage-plus maps
(balances, token_approves, approves, supply) become association lists with
unique keys, Uint128 becomes Nat with the 2^128 bound enforced at every
checked addition, and every fallible operation returns Except.  A Rust
panic (e.g. Option::unwrap on None inside a Map::update closure) is a
distinct error constructor, since it is observably different from a typed
contract error.  Storage writes of a failed call are never persisted: the
CosmWasm host discards all writes of a message whose execution errors, so
each operation is modelled as a function from state to Except of state,
and the committing wrapper keeps the old state on error.
-/
import Mathlib

set_option autoImplicit false

deriving instance DecidableEq for Except

namespace Cw1155

/-- Addresses are opaque validated identifiers; address validation itself is
an external collaborator, so an address is just a string. -/
abbrev Addr := String

/-- Token-type identifiers (`token_id` in the source). -/
abbrev TokenId := String

/-- `Uint128::MAX`. -/
def UMAX : Nat := 2 ^ 128 - 1

/-- Block context supplied by the host (`cosmwasm_std::BlockInfo`),
reduced to the two fields expiration checks read. -/
structure BlockInfo where
  height : Nat
  time : Nat
  deriving DecidableEq, Repr

/-- `cosmwasm_std::Env`, reduced to the block context. -/
structure Env where
  block : BlockInfo
  deriving DecidableEq, Repr

/-- `cosmwasm_std::MessageInfo`, reduced to the sender. -/
structure MessageInfo where
  sender : Addr
  deriving DecidableEq, Repr

/-- `cw_utils::Expiration`. -/
inductive Expiration where
  | atHeight (h : Nat)
  | atTime (t : Nat)
  | never
  deriving DecidableEq, Repr

namespace Expiration

/-- `Expiration::is_expired`: at-height and at-time deadlines are expired
once the block has reached them; `Never` never expires. -/
def is_expired (e : Expiration) (block : BlockInfo) : Bool :=
  match e with
  | atHeight h => block.height ≥ h
  | atTime t => block.time ≥ t
  | never => false

/-- `Expiration::default()` is `Never`. -/
def default : Expiration := never

end Expiration

/-- A scoped approval value (`cw1155::TokenApproval`): an amount ceiling and
an expiration. -/
structure TokenApproval where
  amount : Nat
  expiration : Expiration
  deriving DecidableEq, Repr

/-- Modelled from the spec: `TokenApproval::is_expired` lives in the cw1155
package, whose sources are not in the tree; per the spec an approval is
expired exactly when its expiration is past relative to the current block. -/
def TokenApproval.is_expired (a : TokenApproval) (env : Env) : Bool :=
  a.expiration.is_expired env.block

/-- One batch entry (`cw1155::TokenAmount`). -/
structure TokenAmount where
  token_id : TokenId
  amount : Nat
  deriving DecidableEq, Repr

section StoreMap

variable {κ : Type} {ν : Type} [DecidableEq κ]

/-- Lookup in an association list (the `Map::load`/`may_load` read, which
sees at most one value per key). -/
def getKey : List (κ × ν) → κ → Option ν
  | [], _ => none
  | (k, v) :: rest, k' => if k = k' then some v else getKey rest k'

/-- `Map::remove`. -/
def removeKey : List (κ × ν) → κ → List (κ × ν)
  | [], _ => []
  | (k', v) :: rest, k => if k' = k then removeKey rest k else (k', v) :: removeKey rest k

/-- `Map::save` (overwrite the value at a key). -/
def setKey (l : List (κ × ν)) (k : κ) (v : ν) : List (κ × ν) :=
  (k, v) :: removeKey l k

/-- The keys of a store are distinct; true of every reachable store since
cw-storage-plus maps hold one value per key. -/
def NodupKeys (l : List (κ × ν)) : Prop :=
  (l.map Prod.fst).Nodup

instance (l : List (κ × ν)) : Decidable (NodupKeys l) := by
  unfold NodupKeys; infer_instance

end StoreMap

/-- The persistent state of the contract: the four key-value regions.
`balances` is keyed (owner, token-type) and stores the quantity (the stored
`Balance` struct repeats owner and token_id, which the key already fixes);
`token_approves` is keyed (token-type, owner, operator); `approves` (blanket
approvals) is keyed (owner, operator) and stores only the expiration. -/
structure State where
  balances : List ((Addr × TokenId) × Nat)
  token_approves : List ((TokenId × Addr × Addr) × TokenApproval)
  approves : List ((Addr × Addr) × Expiration)
  supply : List (TokenId × Nat)
  deriving DecidableEq, Repr

/-- The state after `instantiate`: all regions empty, supply zero. -/
def initState : State :=
  { balances := [], token_approves := [], approves := [], supply := [] }

/-- Every way a call can fail.  `stdNotFound` is a typed `StdError::NotFound`
(from `Map::load` on a missing key), `overflow` a typed `StdError::Overflow`
(checked_sub underflow or checked_add overflow), the remaining typed errors
are `Cw1155ContractError` variants; `crash` is a Rust panic (such as
`Option::unwrap` on `None`), which is not a typed error result. -/
inductive Err where
  | stdNotFound
  | overflow
  | expired
  | unauthorized
  | crash
  deriving DecidableEq, Repr

/-- The events a call emits (one per call). -/
inductive LedgerEvent where
  | transfer (sender receiver : Addr) (tokens : List TokenAmount)
  | burnEv (owner : Addr) (tokens : List TokenAmount)
  | mintEv (receiver : Addr) (tokens : List TokenAmount)
  | approveEv (sender operator : Addr) (tokenId : TokenId) (amount : Nat)
  | approveAllEv (sender operator : Addr)
  | revokeEv (sender operator : Addr) (tokenId : TokenId) (amount : Nat)
  | revokeAllEv (sender operator : Addr)
  deriving DecidableEq, Repr

/-- The debit loop of `update_balances` (first loop, run when `from` is
present): for each entry, `balances.update` passes the existing record to a
closure that calls `Option::unwrap` — a panic when no record exists — and
then `checked_sub`, a typed overflow error when the quantity is too small. -/
def debitAll (f : Addr) : List TokenAmount → State → Except Err State
  | [], s => .ok s
  | ⟨tid, a⟩ :: rest, s =>
    match getKey s.balances (f, tid) with
    | none => .error .crash
    | some b =>
      if b < a then .error .overflow
      else debitAll f rest { s with balances := setKey s.balances (f, tid) (b - a) }

/-- The credit loop of `update_balances` (second loop, run when `to` is
present): a missing record is created at zero, then `checked_add` fails on
overflow past `Uint128::MAX`. -/
def creditAll (t : Addr) : List TokenAmount → State → Except Err State
  | [], s => .ok s
  | ⟨tid, a⟩ :: rest, s =>
    let b := (getKey s.balances (t, tid)).getD 0
    if UMAX < b + a then .error .overflow
    else creditAll t rest { s with balances := setKey s.balances (t, tid) (b + a) }

/-- The approval-pruning step of `update_balances` for one entry: iterate
over every scoped approval keyed (`tid`, `f`, operator) — all operators —
remove it when it is expired or its amount is at most the debited amount,
otherwise decrement its amount by the debited amount.  With unique store
keys the loop of removes and updates is this single pass over the store
(the `checked_sub` in the update branch cannot fail there, since that
branch has `amount < approval.amount`). -/
def pruneEntry (env : Env) (f : Addr) (tid : TokenId) (a : Nat)
    (st : List ((TokenId × Addr × Addr) × TokenApproval)) :
    List ((TokenId × Addr × Addr) × TokenApproval) :=
  st.filterMap fun p =>
    if p.1.1 = tid ∧ p.1.2.1 = f then
      if p.2.is_expired env ∨ p.2.amount ≤ a then none
      else some (p.1, { p.2 with amount := p.2.amount - a })
    else some p

/-- Modelled from the spec: `decrement_tokens` is defined in
cw1155-base/src/state.rs, which is not in the tree; per the spec the Supply
Counter for the token-type is decremented by the burned amount using checked
arithmetic. -/
def decrement_tokens (tid : TokenId) (a : Nat) (s : State) : Except Err State :=
  let cur := (getKey s.supply tid).getD 0
  if cur < a then .error .overflow
  else .ok { s with supply := setKey s.supply tid (cur - a) }

/-- Modelled from the spec: `increment_tokens` is defined in
cw1155-base/src/state.rs, which is not in the tree; per the spec the Supply
Counter for the token-type is incremented by the minted amount using checked
arithmetic. -/
def increment_tokens (tid : TokenId) (a : Nat) (s : State) : Except Err State :=
  let cur := (getKey s.supply tid).getD 0
  if UMAX < cur + a then .error .overflow
  else .ok { s with supply := setKey s.supply tid (cur + a) }

/-- The third loop of `update_balances` (run when `from` is present): per
entry, prune the scoped approvals and, when burning (`to` absent),
decrement the supply counter. -/
def pruneAndSupplyAll (env : Env) (f : Addr) (burning : Bool) :
    List TokenAmount → State → Except Err State
  | [], s => .ok s
  | ⟨tid, a⟩ :: rest, s => do
    let s := { s with token_approves := pruneEntry env f tid a s.token_approves }
    let s ← if burning then decrement_tokens tid a s else .ok s
    pruneAndSupplyAll env f burning rest s

/-- The mint branch of `update_balances` (run when `from` is absent):
increment the supply counter per entry. -/
def mintSupplyAll : List TokenAmount → State → Except Err State
  | [], s => .ok s
  | ⟨tid, a⟩ :: rest, s => do
    let s ← increment_tokens tid a s
    mintSupplyAll rest s

/-- `update_balances`: when `from` is `None` mint, when `to` is `None`
burn, when both are `Some` transfer; both `None` is a `panic!` in the
source.  Debit loop, then credit loop, then per-entry approval pruning and
supply update, then the single event for the batch. -/
def update_balances (env : Env) (from? to? : Option Addr)
    (tokens : List TokenAmount) (s : State) : Except Err (State × LedgerEvent) := do
  let s ← match from? with
    | some f => debitAll f tokens s
    | none => .ok s
  let s ← match to? with
    | some t => creditAll t tokens s
    | none => .ok s
  match from? with
  | some f => do
    let s ← pruneAndSupplyAll env f to?.isNone tokens s
    match to? with
    | some t => .ok (s, .transfer f t tokens)
    | none => .ok (s, .burnEv f tokens)
  | none =>
    match to? with
    | some t => do
      let s ← mintSupplyAll tokens s
      .ok (s, .mintEv t tokens)
    | none => .error .crash

/-- `verify_all_approval`: a blanket approval for (owner, operator) exists
and is not expired. -/
def verify_all_approval (s : State) (env : Env) (owner operator : Addr) : Bool :=
  match getKey s.approves (owner, operator) with
  | some ex => ! ex.is_expired env.block
  | none => false

/-- `get_active_token_approval`: the scoped approval for
(token_id, owner, operator) when it exists and is not expired. -/
def get_active_token_approval (s : State) (env : Env) (owner operator : Addr)
    (token_id : TokenId) : Option TokenApproval :=
  match getKey s.token_approves (token_id, owner, operator) with
  | some approval => if ! approval.is_expired env then some approval else none
  | none => none

/-- `verify_approval`: load the owner's balance (`Map::load`, a typed
not-found error when absent), cap the requested amount at the balance; the
owner or a holder of an active blanket approval gets the capped amount; a
holder of an active scoped approval gets the capped amount further capped
at the approval's amount; anyone else is unauthorized. -/
def verify_approval (s : State) (env : Env) (info : MessageInfo) (owner : Addr)
    (token_id : TokenId) (amount : Nat) : Except Err TokenAmount :=
  let operator := info.sender
  match getKey s.balances (owner, token_id) with
  | none => .error .stdNotFound
  | some ownerBalance =>
    let balanceUpdate : TokenAmount := ⟨token_id, min ownerBalance amount⟩
    if owner = operator ∨ verify_all_approval s env owner operator then
      .ok balanceUpdate
    else
      match get_active_token_approval s env owner operator token_id with
      | some tokenApproval => .ok ⟨token_id, min balanceUpdate.amount tokenApproval.amount⟩
      | none => .error .unauthorized

/-- `verify_approvals`: `verify_approval` per entry, first failure wins. -/
def verify_approvals (s : State) (env : Env) (info : MessageInfo) (owner : Addr) :
    List TokenAmount → Except Err (List TokenAmount)
  | [] => .ok []
  | ⟨tid, a⟩ :: rest => do
    let e ← verify_approval s env info owner tid a
    let es ← verify_approvals s env info owner rest
    .ok (e :: es)

/-- The outbound `Cw1155ReceiveMsg` a single-token `send` attaches when a
payload is supplied (address fields as strings, payload kept opaque). -/
structure Cw1155ReceiveMsg where
  operator : Addr
  fromOwner : Option Addr
  amount : Nat
  token_id : TokenId
  msg : String
  deriving DecidableEq, Repr

/-- The outbound `Cw1155BatchReceiveMsg` a `send_batch` attaches. -/
structure Cw1155BatchReceiveMsg where
  operator : Addr
  fromOwner : Option Addr
  batch : List TokenAmount
  msg : String
  deriving DecidableEq, Repr

/-- `approve_token`: reject an already-expired expiration, load the
sender's balance of the token (typed not-found error when absent), store
the approval with amount `min(amount or Uint128::MAX, balance)`,
overwriting any prior approval for the key. -/
def approve_token (env : Env) (info : MessageInfo) (operator : Addr)
    (token_id : TokenId) (amount? : Option Nat) (expiration? : Option Expiration)
    (s : State) : Except Err (State × LedgerEvent) :=
  let expiration := expiration?.getD .never
  if expiration.is_expired env.block then .error .expired
  else
    match getKey s.balances (info.sender, token_id) with
    | none => .error .stdNotFound
    | some balance =>
      let approvalAmount := min (amount?.getD UMAX) balance
      .ok ({ s with
              token_approves := setKey s.token_approves
                (token_id, info.sender, operator) ⟨approvalAmount, expiration⟩ },
           .approveEv info.sender operator token_id approvalAmount)

/-- `approve_all`: reject an already-expired expiration, then
unconditionally overwrite the blanket approval for (sender, operator). -/
def approve_all (env : Env) (info : MessageInfo) (operator : Addr)
    (expires? : Option Expiration) (s : State) : Except Err (State × LedgerEvent) :=
  let expires := expires?.getD .never
  if expires.is_expired env.block then .error .expired
  else
    .ok ({ s with approves := setKey s.approves (info.sender, operator) expires },
         .approveAllEv info.sender operator)

/-- `revoke_token`: load the existing scoped approval (typed not-found
error when absent); revoke `min(amount or Uint128::MAX, existing.amount)`;
delete the record when that equals the existing amount, else decrement it
(the `checked_sub` cannot fail there since the revoke amount is below the
existing amount). -/
def revoke_token (_env : Env) (info : MessageInfo) (operator : Addr)
    (token_id : TokenId) (amount? : Option Nat) (s : State) :
    Except Err (State × LedgerEvent) :=
  match getKey s.token_approves (token_id, info.sender, operator) with
  | none => .error .stdNotFound
  | some prev =>
    let revokeAmount := min (amount?.getD UMAX) prev.amount
    if revokeAmount = prev.amount then
      .ok ({ s with
              token_approves := removeKey s.token_approves
                (token_id, info.sender, operator) },
           .revokeEv info.sender operator token_id revokeAmount)
    else
      .ok ({ s with
              token_approves := setKey s.token_approves
                (token_id, info.sender, operator)
                { prev with amount := prev.amount - revokeAmount } },
           .revokeEv info.sender operator token_id revokeAmount)

/-- `revoke_all`: unconditionally delete the blanket approval (no error
when absent). -/
def revoke_all (_env : Env) (info : MessageInfo) (operator : Addr) (s : State) :
    Except Err (State × LedgerEvent) :=
  .ok ({ s with approves := removeKey s.approves (info.sender, operator) },
       .revokeAllEv info.sender operator)

/-- `send` (single token): `from` defaults to the sender; verify approval
to get the authorized (possibly down-capped) amount; move that amount; when
a payload is attached, the outbound receive message reports the *original*
requested `amount`, not the authorized one. -/
def send (env : Env) (info : MessageInfo) (from? : Option Addr) (rcpt : Addr)
    (token_id : TokenId) (amount : Nat) (msg? : Option String) (s : State) :
    Except Err (State × LedgerEvent × List Cw1155ReceiveMsg) := do
  let f := from?.getD info.sender
  let balanceUpdate ← verify_approval s env info f token_id amount
  let (s', ev) ← update_balances env (some f) (some rcpt)
    [⟨token_id, balanceUpdate.amount⟩] s
  let msgs := match msg? with
    | some m => [⟨info.sender, some f, amount, token_id, m⟩]
    | none => []
  .ok (s', ev, msgs)

/-- `send_batch`: like `send` over a batch; here the outbound receive
message carries the *verified* batch. -/
def send_batch (env : Env) (info : MessageInfo) (from? : Option Addr) (rcpt : Addr)
    (batch : List TokenAmount) (msg? : Option String) (s : State) :
    Except Err (State × LedgerEvent × List Cw1155BatchReceiveMsg) := do
  let f := from?.getD info.sender
  let batch' ← verify_approvals s env info f batch
  let (s', ev) ← update_balances env (some f) (some rcpt) batch' s
  let msgs := match msg? with
    | some m => [⟨info.sender, some f, batch', m⟩]
    | none => []
  .ok (s', ev, msgs)

/-- `burn` (single token): whoever can transfer can burn — the same
approval check as `send`, then `update_balances` with `to = None`. -/
def burn (env : Env) (info : MessageInfo) (from? : Option Addr)
    (token_id : TokenId) (amount : Nat) (s : State) :
    Except Err (State × LedgerEvent) := do
  let f := from?.getD info.sender
  let balanceUpdate ← verify_approval s env info f token_id amount
  update_balances env (some f) none [⟨token_id, balanceUpdate.amount⟩] s

/-- `burn_batch`. -/
def burn_batch (env : Env) (info : MessageInfo) (from? : Option Addr)
    (batch : List TokenAmount) (s : State) : Except Err (State × LedgerEvent) := do
  let f := from?.getD info.sender
  let batch' ← verify_approvals s env info f batch
  update_balances env (some f) none batch' s

/-- `mint` (single token): `update_balances` with `from = None`.  The
minter-authority check (`cw_ownable::assert_owner`) is an external
collaborator per the spec, and token metadata is out of scope, so the
operation is modelled post-authorization without the metadata write. -/
def mint (env : Env) (recipient : Addr) (token_id : TokenId) (amount : Nat)
    (s : State) : Except Err (State × LedgerEvent) :=
  update_balances env none (some recipient) [⟨token_id, amount⟩] s

/-- `mint_batch`, modelled post-authorization like `mint`. -/
def mint_batch (env : Env) (recipient : Addr) (batch : List TokenAmount)
    (s : State) : Except Err (State × LedgerEvent) :=
  update_balances env none (some recipient) batch s

/-- The executable messages of the contract (`Cw1155ExecuteMsg`), with
addresses already validated. -/
inductive Msg where
  | sendBatchM (from? : Option Addr) (rcpt : Addr) (batch : List TokenAmount)
      (msg? : Option String)
  | mintBatchM (recipient : Addr) (batch : List TokenAmount)
  | burnBatchM (from? : Option Addr) (batch : List TokenAmount)
  | approveAllM (operator : Addr) (expires? : Option Expiration)
  | revokeAllM (operator : Addr)
  | sendM (from? : Option Addr) (rcpt : Addr) (token_id : TokenId) (amount : Nat)
      (msg? : Option String)
  | mintM (recipient : Addr) (token_id : TokenId) (amount : Nat)
  | burnM (from? : Option Addr) (token_id : TokenId) (amount : Nat)
  | approveM (operator : Addr) (token_id : TokenId) (amount? : Option Nat)
      (expires? : Option Expiration)
  | revokeM (operator : Addr) (token_id : TokenId) (amount? : Option Nat)
  deriving DecidableEq, Repr

/-- The `execute` dispatcher, projected to the state it produces. -/
def executeS (env : Env) (info : MessageInfo) (msg : Msg) (s : State) :
    Except Err State :=
  match msg with
  | .sendBatchM from? rcpt batch msg? =>
    (send_batch env info from? rcpt batch msg? s).map (·.1)
  | .mintBatchM recipient batch => (mint_batch env recipient batch s).map (·.1)
  | .burnBatchM from? batch => (burn_batch env info from? batch s).map (·.1)
  | .approveAllM operator expires? => (approve_all env info operator expires? s).map (·.1)
  | .revokeAllM operator => (revoke_all env info operator s).map (·.1)
  | .sendM from? rcpt token_id amount msg? =>
    (send env info from? rcpt token_id amount msg? s).map (·.1)
  | .mintM recipient token_id amount => (mint env recipient token_id amount s).map (·.1)
  | .burnM from? token_id amount => (burn env info from? token_id amount s).map (·.1)
  | .approveM operator token_id amount? expires? =>
    (approve_token env info operator token_id amount? expires? s).map (·.1)
  | .revokeM operator token_id amount? =>
    (revoke_token env info operator token_id amount? s).map (·.1)

/-- The persisted state after one call: the CosmWasm host commits the
writes of a successful execution and discards all writes of a failed one. -/
def execCommit (env : Env) (info : MessageInfo) (msg : Msg) (s : State) : State :=
  match executeS env info msg s with
  | .ok s' => s'
  | .error _ => s

/-- The persisted state after a sequence of calls. -/
def runMsgs : List (Env × MessageInfo × Msg) → State → State
  | [], s => s
  | (env, info, msg) :: rest, s => runMsgs rest (execCommit env info msg s)

/-- The sum over all owners of the stored balance of one token-type. -/
def sumTok : List ((Addr × TokenId) × Nat) → TokenId → Nat
  | [], _ => 0
  | (k, v) :: rest, tid => (if k.2 = tid then v else 0) + sumTok rest tid

/-- The total amount a batch moves for one token-type. -/
def totalTok : List TokenAmount → TokenId → Nat
  | [], _ => 0
  | e :: rest, tid => (if e.token_id = tid then e.amount else 0) + totalTok rest tid

/-- The issued supply of one token-type (absent means zero). -/
def supplyOf (s : State) (tid : TokenId) : Nat :=
  (getKey s.supply tid).getD 0

/-- The conservation invariant: per token-type, the sum of all owners'
balances equals the issued supply (plus key uniqueness of the balance
store, which every reachable state satisfies). -/
def Inv (s : State) : Prop :=
  NodupKeys s.balances ∧ ∀ tid, sumTok s.balances tid = supplyOf s tid


section StoreMapLemmas

variable {κ : Type} {ν : Type} [DecidableEq κ]

theorem getKey_removeKey (l : List (κ × ν)) (k k' : κ) :
    getKey (removeKey l k) k' = if k = k' then none else getKey l k' := by
  induction l with
  | nil => simp [removeKey, getKey]
  | cons p rest ih =>
    obtain ⟨a, b⟩ := p
    by_cases hak : a = k <;> by_cases hkk : k = k' <;>
      simp_all [removeKey, getKey]

theorem getKey_setKey (l : List (κ × ν)) (k k' : κ) (v : ν) :
    getKey (setKey l k v) k' = if k = k' then some v else getKey l k' := by
  by_cases h : k = k' <;> simp [setKey, getKey, getKey_removeKey, h]

theorem removeKey_sublist (l : List (κ × ν)) (k : κ) :
    List.Sublist (removeKey l k) l := by
  induction l with
  | nil => simp [removeKey]
  | cons p rest ih =>
    obtain ⟨a, b⟩ := p
    by_cases hak : a = k
    · simpa [removeKey, hak] using ih.cons (a, b)
    · simpa [removeKey, hak] using ih.cons₂ (a, b)

theorem nodupKeys_removeKey {l : List (κ × ν)} (k : κ) (h : NodupKeys l) :
    NodupKeys (removeKey l k) :=
  h.sublist ((removeKey_sublist l k).map Prod.fst)

theorem not_mem_keys_removeKey (l : List (κ × ν)) (k : κ) :
    k ∉ (removeKey l k).map Prod.fst := by
  induction l with
  | nil => simp [removeKey]
  | cons p rest ih =>
    obtain ⟨a, b⟩ := p
    by_cases hak : a = k
    · simpa [removeKey, hak] using ih
    · simp only [removeKey, if_neg hak, List.map_cons, List.mem_cons]
      push_neg
      exact ⟨fun h => hak h.symm, ih⟩

theorem removeKey_eq_of_not_mem {l : List (κ × ν)} {k : κ}
    (h : k ∉ l.map Prod.fst) : removeKey l k = l := by
  induction l with
  | nil => rfl
  | cons p rest ih =>
    obtain ⟨a, b⟩ := p
    simp only [List.map_cons, List.mem_cons] at h
    push_neg at h
    simp [removeKey, Ne.symm h.1, ih h.2]

theorem nodupKeys_setKey {l : List (κ × ν)} (k : κ) (v : ν) (h : NodupKeys l) :
    NodupKeys (setKey l k v) := by
  simp only [setKey, NodupKeys, List.map_cons, List.nodup_cons]
  exact ⟨not_mem_keys_removeKey l k, nodupKeys_removeKey k h⟩

theorem getKey_eq_none_of_not_mem {l : List (κ × ν)} {k : κ}
    (h : k ∉ l.map Prod.fst) : getKey l k = none := by
  induction l with
  | nil => rfl
  | cons p rest ih =>
    simp only [List.map_cons, List.mem_cons] at h
    push_neg at h
    simp [getKey, Ne.symm h.1, ih h.2]


end StoreMapLemmas

theorem sumTok_removeKey {l : List ((Addr × TokenId) × Nat)} (h : NodupKeys l)
    (k : Addr × TokenId) (tid : TokenId) :
    sumTok (removeKey l k) tid + (if k.2 = tid then (getKey l k).getD 0 else 0) =
      sumTok l tid := by
  induction l with
  | nil => simp [removeKey, sumTok, getKey]
  | cons p rest ih =>
    obtain ⟨a, b⟩ := p
    simp only [NodupKeys, List.map_cons, List.nodup_cons] at h
    by_cases hak : a = k
    · subst hak
      have hrk : removeKey rest a = rest := removeKey_eq_of_not_mem h.1
      simp [removeKey, sumTok, getKey, hrk]
      ring
    · have := ih h.2
      simp only [removeKey, if_neg hak, sumTok, getKey, if_neg hak]
      omega

theorem sumTok_setKey {l : List ((Addr × TokenId) × Nat)} (h : NodupKeys l)
    (k : Addr × TokenId) (v : Nat) (tid : TokenId) :
    sumTok (setKey l k v) tid + (if k.2 = tid then (getKey l k).getD 0 else 0) =
      sumTok l tid + (if k.2 = tid then v else 0) := by
  have hr := sumTok_removeKey h k tid
  simp only [setKey, sumTok]
  omega

theorem debitAll_ok (f : Addr) : ∀ (tokens : List TokenAmount) (s s' : State),
    debitAll f tokens s = .ok s' →
    s'.token_approves = s.token_approves ∧ s'.approves = s.approves ∧
      s'.supply = s.supply ∧
      (NodupKeys s.balances → NodupKeys s'.balances ∧
        ∀ tid, sumTok s'.balances tid + totalTok tokens tid = sumTok s.balances tid)
  | [], s, s', h => by
    simp only [debitAll, Except.ok.injEq] at h
    subst h
    exact ⟨rfl, rfl, rfl, fun hn => ⟨hn, fun tid => by simp [totalTok]⟩⟩
  | ⟨tid0, a0⟩ :: rest, s, s', h => by
    rw [debitAll] at h
    split at h
    · exact absurd h (by simp)
    · rename_i b hg
      split at h
      · exact absurd h (by simp)
      · rename_i hba
        obtain ⟨h1, h2, h3, h4⟩ := debitAll_ok f rest _ s' h
        refine ⟨h1, h2, h3, fun hn => ?_⟩
        have hset := nodupKeys_setKey (l := s.balances) (f, tid0) (b - a0) hn
        obtain ⟨hn', hsum⟩ := h4 hset
        refine ⟨hn', fun tid => ?_⟩
        have hs := sumTok_setKey hn (f, tid0) (b - a0) tid
        rw [hg] at hs
        have ht := hsum tid
        simp only [totalTok]
        dsimp only at ht
        by_cases htid : tid0 = tid
        · subst htid
          simp at hs ht ⊢
          omega
        · simp [htid] at hs ht ⊢
          omega

theorem creditAll_ok (t : Addr) : ∀ (tokens : List TokenAmount) (s s' : State),
    creditAll t tokens s = .ok s' →
    s'.token_approves = s.token_approves ∧ s'.approves = s.approves ∧
      s'.supply = s.supply ∧
      (NodupKeys s.balances → NodupKeys s'.balances ∧
        ∀ tid, sumTok s'.balances tid = sumTok s.balances tid + totalTok tokens tid)
  | [], s, s', h => by
    simp only [creditAll, Except.ok.injEq] at h
    subst h
    exact ⟨rfl, rfl, rfl, fun hn => ⟨hn, fun tid => by simp [totalTok]⟩⟩
  | ⟨tid0, a0⟩ :: rest, s, s', h => by
    rw [creditAll] at h
    split at h
    · exact absurd h (by simp)
    · rename_i hov
      obtain ⟨h1, h2, h3, h4⟩ := creditAll_ok t rest _ s' h
      refine ⟨h1, h2, h3, fun hn => ?_⟩
      have hset := nodupKeys_setKey (l := s.balances) (t, tid0)
        ((getKey s.balances (t, tid0)).getD 0 + a0) hn
      obtain ⟨hn', hsum⟩ := h4 hset
      refine ⟨hn', fun tid => ?_⟩
      have hs := sumTok_setKey hn (t, tid0) ((getKey s.balances (t, tid0)).getD 0 + a0) tid
      have ht := hsum tid
      simp only [totalTok]
      dsimp only at ht
      by_cases htid : tid0 = tid
      · subst htid
        simp at hs ht ⊢
        omega
      · simp [htid] at hs ht ⊢
        omega

theorem pruneSupply_ok (env : Env) (f : Addr) (burning : Bool) :
    ∀ (tokens : List TokenAmount) (s s' : State),
    pruneAndSupplyAll env f burning tokens s = .ok s' →
    s'.balances = s.balances ∧ s'.approves = s.approves ∧
      s'.token_approves =
        tokens.foldl (fun st e => pruneEntry env f e.token_id e.amount st)
          s.token_approves ∧
      (burning = false → s'.supply = s.supply) ∧
      (burning = true →
        ∀ tid, supplyOf s' tid + totalTok tokens tid = supplyOf s tid)
  | [], s, s', h => by
    simp only [pruneAndSupplyAll, Except.ok.injEq] at h
    subst h
    exact ⟨rfl, rfl, rfl, fun _ => rfl, fun _ tid => by simp [totalTok]⟩
  | ⟨tid0, a0⟩ :: rest, s, s', h => by
    rw [pruneAndSupplyAll] at h
    cases burning with
    | false =>
      simp only [Bool.false_eq_true, if_false, bind, Except.bind] at h
      obtain ⟨h1, h2, h3, h4, _⟩ := pruneSupply_ok env f false rest _ s' h
      refine ⟨by simpa using h1, by simpa using h2, ?_, fun _ => by simpa using h4 rfl,
        fun hc => absurd hc (by simp)⟩
      rw [List.foldl_cons]
      simpa using h3
    | true =>
      rw [if_pos rfl] at h
      simp only [decrement_tokens] at h
      split at h
      · simp [bind, Except.bind] at h
      · rename_i hcur
        simp only [bind, Except.bind] at h
        obtain ⟨h1, h2, h3, _, h5⟩ := pruneSupply_ok env f true rest _ s' h
        refine ⟨by simpa using h1, by simpa using h2, ?_, fun hc => absurd hc (by simp),
          fun _ tid => ?_⟩
        · rw [List.foldl_cons]
          simpa using h3
        · have ht := h5 rfl tid
          have hcur' : ¬ (getKey s.supply tid0).getD 0 < a0 := by simpa using hcur
          simp only [supplyOf, getKey_setKey, totalTok] at ht ⊢
          by_cases htid : tid0 = tid
          · subst htid
            simp at ht ⊢
            omega
          · simp [htid] at ht ⊢
            omega

theorem mintSupplyAll_ok : ∀ (tokens : List TokenAmount) (s s' : State),
    mintSupplyAll tokens s = .ok s' →
    s'.balances = s.balances ∧ s'.token_approves = s.token_approves ∧
      s'.approves = s.approves ∧
      ∀ tid, supplyOf s' tid = supplyOf s tid + totalTok tokens tid
  | [], s, s', h => by
    simp only [mintSupplyAll, Except.ok.injEq] at h
    subst h
    exact ⟨rfl, rfl, rfl, fun tid => by simp [totalTok]⟩
  | ⟨tid0, a0⟩ :: rest, s, s', h => by
    rw [mintSupplyAll] at h
    simp only [increment_tokens] at h
    split at h
    · simp [bind, Except.bind] at h
    · rename_i hov
      simp only [bind, Except.bind] at h
      obtain ⟨h1, h2, h3, h4⟩ := mintSupplyAll_ok rest _ s' h
      refine ⟨by simpa using h1, by simpa using h2, by simpa using h3, fun tid => ?_⟩
      have ht := h4 tid
      simp only [supplyOf, getKey_setKey, totalTok] at ht ⊢
      by_cases htid : tid0 = tid
      · subst htid
        simp at ht ⊢
        omega
      · simp [htid] at ht ⊢
        omega

theorem update_balances_transfer_shape (env : Env) (f t : Addr)
    (tokens : List TokenAmount) (s s' : State) (ev : LedgerEvent)
    (h : update_balances env (some f) (some t) tokens s = .ok (s', ev)) :
    ∃ s₁ s₂, debitAll f tokens s = .ok s₁ ∧ creditAll t tokens s₁ = .ok s₂ ∧
      pruneAndSupplyAll env f false tokens s₂ = .ok s' ∧
      ev = .transfer f t tokens := by
  rw [update_balances] at h
  cases hd : debitAll f tokens s with
  | error e => rw [hd] at h; simp [bind, Except.bind] at h
  | ok s₁ =>
    rw [hd] at h
    simp only [bind, Except.bind] at h
    cases hc : creditAll t tokens s₁ with
    | error e => rw [hc] at h; simp [bind, Except.bind] at h
    | ok s₂ =>
      rw [hc] at h
      simp only [bind, Except.bind, Option.isNone_some] at h
      cases hp : pruneAndSupplyAll env f false tokens s₂ with
      | error e => rw [hp] at h; simp [bind, Except.bind] at h
      | ok s₃ =>
        rw [hp] at h
        simp only [bind, Except.bind, Except.ok.injEq, Prod.mk.injEq] at h
        obtain ⟨h1, h2⟩ := h
        subst h1
        exact ⟨_, _, rfl, hc, hp, h2.symm⟩

theorem update_balances_burn_shape (env : Env) (f : Addr)
    (tokens : List TokenAmount) (s s' : State) (ev : LedgerEvent)
    (h : update_balances env (some f) none tokens s = .ok (s', ev)) :
    ∃ s₁, debitAll f tokens s = .ok s₁ ∧
      pruneAndSupplyAll env f true tokens s₁ = .ok s' ∧
      ev = .burnEv f tokens := by
  rw [update_balances] at h
  cases hd : debitAll f tokens s with
  | error e => rw [hd] at h; simp [bind, Except.bind] at h
  | ok s₁ =>
    rw [hd] at h
    simp only [bind, Except.bind, Option.isNone_none] at h
    cases hp : pruneAndSupplyAll env f true tokens s₁ with
    | error e => rw [hp] at h; simp [bind, Except.bind] at h
    | ok s₂ =>
      rw [hp] at h
      simp only [bind, Except.bind, Except.ok.injEq, Prod.mk.injEq] at h
      obtain ⟨h1, h2⟩ := h
      subst h1
      exact ⟨_, rfl, hp, h2.symm⟩

theorem update_balances_mint_shape (env : Env) (t : Addr)
    (tokens : List TokenAmount) (s s' : State) (ev : LedgerEvent)
    (h : update_balances env none (some t) tokens s = .ok (s', ev)) :
    ∃ s₁, creditAll t tokens s = .ok s₁ ∧ mintSupplyAll tokens s₁ = .ok s' ∧
      ev = .mintEv t tokens := by
  rw [update_balances] at h
  simp only [bind, Except.bind] at h
  cases hc : creditAll t tokens s with
  | error e => rw [hc] at h; simp [bind, Except.bind] at h
  | ok s₁ =>
    rw [hc] at h
    simp only [bind, Except.bind] at h
    cases hm : mintSupplyAll tokens s₁ with
    | error e => rw [hm] at h; simp [bind, Except.bind] at h
    | ok s₂ =>
      rw [hm] at h
      simp only [bind, Except.bind, Except.ok.injEq, Prod.mk.injEq] at h
      obtain ⟨h1, h2⟩ := h
      subst h1
      exact ⟨_, rfl, hm, h2.symm⟩

theorem update_balances_none_none (env : Env) (tokens : List TokenAmount)
    (s : State) : update_balances env none none tokens s = .error .crash := rfl

theorem update_balances_inv (env : Env) (from? to? : Option Addr)
    (tokens : List TokenAmount) (s s' : State) (ev : LedgerEvent)
    (hI : Inv s) (h : update_balances env from? to? tokens s = .ok (s', ev)) :
    Inv s' := by
  obtain ⟨hn, hsum⟩ := hI
  cases from? with
  | some f =>
    cases to? with
    | some t =>
      obtain ⟨s₁, s₂, hd, hc, hp, _⟩ :=
        update_balances_transfer_shape env f t tokens s s' ev h
      obtain ⟨d1, d2, d3, d4⟩ := debitAll_ok f tokens s s₁ hd
      obtain ⟨hn₁, hs₁⟩ := d4 hn
      obtain ⟨c1, c2, c3, c4⟩ := creditAll_ok t tokens s₁ s₂ hc
      obtain ⟨hn₂, hs₂⟩ := c4 hn₁
      obtain ⟨p1, p2, p3, p4, _⟩ := pruneSupply_ok env f false tokens s₂ s' hp
      constructor
      · rw [p1]; exact hn₂
      · intro tid
        rw [p1]
        have hsup : supplyOf s' tid = supplyOf s tid := by
          simp [supplyOf, p4 rfl, c3, d3]
        rw [hsup]
        have h1 := hs₁ tid
        have h2 := hs₂ tid
        have h3 := hsum tid
        omega
    | none =>
      obtain ⟨s₁, hd, hp, _⟩ := update_balances_burn_shape env f tokens s s' ev h
      obtain ⟨d1, d2, d3, d4⟩ := debitAll_ok f tokens s s₁ hd
      obtain ⟨hn₁, hs₁⟩ := d4 hn
      obtain ⟨p1, p2, p3, _, p5⟩ := pruneSupply_ok env f true tokens s₁ s' hp
      constructor
      · rw [p1]; exact hn₁
      · intro tid
        rw [p1]
        have h1 := hs₁ tid
        have h2 := p5 rfl tid
        have h3 := hsum tid
        have h4 : supplyOf s₁ tid = supplyOf s tid := by simp [supplyOf, d3]
        omega
  | none =>
    cases to? with
    | some t =>
      obtain ⟨s₁, hc, hm, _⟩ := update_balances_mint_shape env t tokens s s' ev h
      obtain ⟨c1, c2, c3, c4⟩ := creditAll_ok t tokens s s₁ hc
      obtain ⟨hn₁, hs₁⟩ := c4 hn
      obtain ⟨m1, m2, m3, m4⟩ := mintSupplyAll_ok tokens s₁ s' hm
      constructor
      · rw [m1]; exact hn₁
      · intro tid
        rw [m1]
        have h1 := hs₁ tid
        have h2 := m4 tid
        have h3 := hsum tid
        have h4 : supplyOf s₁ tid = supplyOf s tid := by simp [supplyOf, c3]
        omega
    | none => rw [update_balances_none_none] at h; exact absurd h (by simp)

theorem send_state (env : Env) (info : MessageInfo) (from? : Option Addr)
    (rcpt : Addr) (tid : TokenId) (amt : Nat) (msg? : Option String) (s : State)
    (r : State × LedgerEvent × List Cw1155ReceiveMsg)
    (h : send env info from? rcpt tid amt msg? s = .ok r) :
    ∃ tokens ev,
      update_balances env (some (from?.getD info.sender)) (some rcpt) tokens s =
        .ok (r.1, ev) := by
  simp only [send.eq_def] at h
  cases hv : verify_approval s env info (from?.getD info.sender) tid amt with
  | error e => rw [hv] at h; simp [bind, Except.bind] at h
  | ok bu =>
    rw [hv] at h
    simp only [bind, Except.bind] at h
    cases hub : update_balances env (some (from?.getD info.sender)) (some rcpt)
        [⟨tid, bu.amount⟩] s with
    | error e => rw [hub] at h; simp at h
    | ok p =>
      rw [hub] at h
      obtain ⟨st, ev⟩ := p
      simp only [Except.ok.injEq] at h
      exact ⟨[⟨tid, bu.amount⟩], ev, by rw [hub, ← h]⟩

theorem send_batch_state (env : Env) (info : MessageInfo) (from? : Option Addr)
    (rcpt : Addr) (batch : List TokenAmount) (msg? : Option String) (s : State)
    (r : State × LedgerEvent × List Cw1155BatchReceiveMsg)
    (h : send_batch env info from? rcpt batch msg? s = .ok r) :
    ∃ tokens ev,
      update_balances env (some (from?.getD info.sender)) (some rcpt) tokens s =
        .ok (r.1, ev) := by
  rw [send_batch] at h
  cases hv : verify_approvals s env info (from?.getD info.sender) batch with
  | error e => rw [hv] at h; simp [bind, Except.bind] at h
  | ok batch' =>
    rw [hv] at h
    simp only [bind, Except.bind] at h
    cases hub : update_balances env (some (from?.getD info.sender)) (some rcpt)
        batch' s with
    | error e => rw [hub] at h; simp at h
    | ok p =>
      rw [hub] at h
      obtain ⟨st, ev⟩ := p
      simp only [Except.ok.injEq] at h
      exact ⟨batch', ev, by rw [hub, ← h]⟩

theorem burn_state (env : Env) (info : MessageInfo) (from? : Option Addr)
    (tid : TokenId) (amt : Nat) (s : State) (r : State × LedgerEvent)
    (h : burn env info from? tid amt s = .ok r) :
    ∃ tokens ev,
      update_balances env (some (from?.getD info.sender)) none tokens s =
        .ok (r.1, ev) := by
  rw [burn] at h
  cases hv : verify_approval s env info (from?.getD info.sender) tid amt with
  | error e => rw [hv] at h; simp [bind, Except.bind] at h
  | ok bu =>
    rw [hv] at h
    simp only [bind, Except.bind] at h
    exact ⟨[⟨tid, bu.amount⟩], r.2, by rw [← h]⟩

theorem burn_batch_state (env : Env) (info : MessageInfo) (from? : Option Addr)
    (batch : List TokenAmount) (s : State) (r : State × LedgerEvent)
    (h : burn_batch env info from? batch s = .ok r) :
    ∃ tokens ev,
      update_balances env (some (from?.getD info.sender)) none tokens s =
        .ok (r.1, ev) := by
  rw [burn_batch] at h
  cases hv : verify_approvals s env info (from?.getD info.sender) batch with
  | error e => rw [hv] at h; simp [bind, Except.bind] at h
  | ok batch' =>
    rw [hv] at h
    simp only [bind, Except.bind] at h
    exact ⟨batch', r.2, by rw [← h]⟩

theorem approve_token_state (env : Env) (info : MessageInfo) (op : Addr)
    (tid : TokenId) (amt? : Option Nat) (exp? : Option Expiration) (s : State)
    (r : State × LedgerEvent) (h : approve_token env info op tid amt? exp? s = .ok r) :
    r.1.balances = s.balances ∧ r.1.supply = s.supply := by
  rw [approve_token] at h
  split at h
  · simp at h
  · cases hg : getKey s.balances (info.sender, tid) with
    | none => rw [hg] at h; simp at h
    | some b =>
      rw [hg] at h
      simp only [Except.ok.injEq] at h
      rw [← h]

      exact ⟨rfl, rfl⟩

theorem approve_all_state (env : Env) (info : MessageInfo) (op : Addr)
    (exp? : Option Expiration) (s : State) (r : State × LedgerEvent)
    (h : approve_all env info op exp? s = .ok r) :
    r.1.balances = s.balances ∧ r.1.supply = s.supply := by
  rw [approve_all] at h
  split at h
  · simp at h
  · simp only [Except.ok.injEq] at h
    rw [← h]
    exact ⟨rfl, rfl⟩

theorem revoke_token_state (env : Env) (info : MessageInfo) (op : Addr)
    (tid : TokenId) (amt? : Option Nat) (s : State) (r : State × LedgerEvent)
    (h : revoke_token env info op tid amt? s = .ok r) :
    r.1.balances = s.balances ∧ r.1.supply = s.supply := by
  rw [revoke_token] at h
  split at h
  · simp at h
  · dsimp only at h
    split at h <;>
      (simp only [Except.ok.injEq] at h; rw [← h]; exact ⟨rfl, rfl⟩)

theorem revoke_all_state (env : Env) (info : MessageInfo) (op : Addr) (s : State)
    (r : State × LedgerEvent) (h : revoke_all env info op s = .ok r) :
    r.1.balances = s.balances ∧ r.1.supply = s.supply := by
  rw [revoke_all] at h
  simp only [Except.ok.injEq] at h
  rw [← h]
  exact ⟨rfl, rfl⟩

theorem inv_of_same_balances_supply {s s' : State}
    (hb : s'.balances = s.balances) (hs : s'.supply = s.supply) (hI : Inv s) :
    Inv s' := by
  obtain ⟨hn, hsum⟩ := hI
  refine ⟨by rw [hb]; exact hn, fun tid => ?_⟩
  rw [hb, show supplyOf s' tid = supplyOf s tid by simp [supplyOf, hs]]
  exact hsum tid

theorem executeS_inv (env : Env) (info : MessageInfo) (msg : Msg) (s s' : State)
    (hI : Inv s) (h : executeS env info msg s = .ok s') : Inv s' := by
  cases msg with
  | sendBatchM from? rcpt batch msg? =>
    simp only [executeS] at h
    cases hop : send_batch env info from? rcpt batch msg? s with
    | error e => rw [hop] at h; simp [Except.map] at h
    | ok r =>
      rw [hop] at h
      simp only [Except.map, Except.ok.injEq] at h
      obtain ⟨tokens, ev, hub⟩ := send_batch_state env info from? rcpt batch msg? s r hop
      rw [← h]
      exact update_balances_inv env _ _ tokens s r.1 ev hI hub
  | mintBatchM recipient batch =>
    simp only [executeS, mint_batch] at h
    cases hop : update_balances env none (some recipient) batch s with
    | error e => rw [hop] at h; simp [Except.map] at h
    | ok r =>
      rw [hop] at h
      simp only [Except.map, Except.ok.injEq] at h
      rw [← h]
      exact update_balances_inv env _ _ batch s r.1 r.2 hI (by rw [hop])
  | burnBatchM from? batch =>
    simp only [executeS] at h
    cases hop : burn_batch env info from? batch s with
    | error e => rw [hop] at h; simp [Except.map] at h
    | ok r =>
      rw [hop] at h
      simp only [Except.map, Except.ok.injEq] at h
      obtain ⟨tokens, ev, hub⟩ := burn_batch_state env info from? batch s r hop
      rw [← h]
      exact update_balances_inv env _ _ tokens s r.1 ev hI hub
  | approveAllM op exp? =>
    simp only [executeS] at h
    cases hop : approve_all env info op exp? s with
    | error e => rw [hop] at h; simp [Except.map] at h
    | ok r =>
      rw [hop] at h
      simp only [Except.map, Except.ok.injEq] at h
      obtain ⟨hb, hs⟩ := approve_all_state env info op exp? s r hop
      rw [← h]
      exact inv_of_same_balances_supply hb hs hI
  | revokeAllM op =>
    simp only [executeS] at h
    cases hop : revoke_all env info op s with
    | error e => rw [hop] at h; simp [Except.map] at h
    | ok r =>
      rw [hop] at h
      simp only [Except.map, Except.ok.injEq] at h
      obtain ⟨hb, hs⟩ := revoke_all_state env info op s r hop
      rw [← h]
      exact inv_of_same_balances_supply hb hs hI
  | sendM from? rcpt tid amt msg? =>
    simp only [executeS] at h
    cases hop : send env info from? rcpt tid amt msg? s with
    | error e => rw [hop] at h; simp [Except.map] at h
    | ok r =>
      rw [hop] at h
      simp only [Except.map, Except.ok.injEq] at h
      obtain ⟨tokens, ev, hub⟩ := send_state env info from? rcpt tid amt msg? s r hop
      rw [← h]
      exact update_balances_inv env _ _ tokens s r.1 ev hI hub
  | mintM recipient tid amt =>
    simp only [executeS, mint] at h
    cases hop : update_balances env none (some recipient) [⟨tid, amt⟩] s with
    | error e => rw [hop] at h; simp [Except.map] at h
    | ok r =>
      rw [hop] at h
      simp only [Except.map, Except.ok.injEq] at h
      rw [← h]
      exact update_balances_inv env _ _ _ s r.1 r.2 hI (by rw [hop])
  | burnM from? tid amt =>
    simp only [executeS] at h
    cases hop : burn env info from? tid amt s with
    | error e => rw [hop] at h; simp [Except.map] at h
    | ok r =>
      rw [hop] at h
      simp only [Except.map, Except.ok.injEq] at h
      obtain ⟨tokens, ev, hub⟩ := burn_state env info from? tid amt s r hop
      rw [← h]
      exact update_balances_inv env _ _ tokens s r.1 ev hI hub
  | approveM op tid amt? exp? =>
    simp only [executeS] at h
    cases hop : approve_token env info op tid amt? exp? s with
    | error e => rw [hop] at h; simp [Except.map] at h
    | ok r =>
      rw [hop] at h
      simp only [Except.map, Except.ok.injEq] at h
      obtain ⟨hb, hs⟩ := approve_token_state env info op tid amt? exp? s r hop
      rw [← h]
      exact inv_of_same_balances_supply hb hs hI
  | revokeM op tid amt? =>
    simp only [executeS] at h
    cases hop : revoke_token env info op tid amt? s with
    | error e => rw [hop] at h; simp [Except.map] at h
    | ok r =>
      rw [hop] at h
      simp only [Except.map, Except.ok.injEq] at h
      obtain ⟨hb, hs⟩ := revoke_token_state env info op tid amt? s r hop
      rw [← h]
      exact inv_of_same_balances_supply hb hs hI

theorem execCommit_inv (env : Env) (info : MessageInfo) (msg : Msg) (s : State)
    (hI : Inv s) : Inv (execCommit env info msg s) := by
  unfold execCommit
  cases h : executeS env info msg s with
  | error e => exact hI
  | ok s' => exact executeS_inv env info msg s s' hI h

theorem runMsgs_inv : ∀ (calls : List (Env × MessageInfo × Msg)) (s : State),
    Inv s → Inv (runMsgs calls s)
  | [], _, hI => hI
  | (env, info, msg) :: rest, s, hI =>
    runMsgs_inv rest _ (execCommit_inv env info msg s hI)

theorem inv_initState : Inv initState := by
  constructor
  · simp [initState, NodupKeys]
  · intro tid
    simp [initState, sumTok, supplyOf, getKey]

/-- C4: starting from the freshly instantiated state, after every sequence of
calls (in particular every sequence of mint, transfer and burn operations)
the sum over all owners of the balance of a token-type equals that
token-type's supply: `update_balances` moves supply exactly on mint (`from`
absent, increment) and burn (`to` absent, decrement) and leaves it unchanged
on transfer, so the ledger conserves supply at every point in time. -/
theorem supply_conservation (calls : List (Env × MessageInfo × Msg)) (tid : TokenId) :
    sumTok (runMsgs calls initState).balances tid =
      supplyOf (runMsgs calls initState) tid :=
  (runMsgs_inv calls initState inv_initState).2 tid

/-- C5: every call commits all-or-nothing: the persisted state after a call
either equals the pre-call state (the call failed — no mutation from any
batch entry is persisted, the error of any single entry having aborted the
whole call) or is the state of the fully successful execution. -/
theorem batch_all_or_nothing (env : Env) (info : MessageInfo) (msg : Msg) (s : State) :
    execCommit env info msg s = s ∨
      executeS env info msg s = .ok (execCommit env info msg s) := by
  unfold execCommit
  cases h : executeS env info msg s with
  | error e => exact Or.inl rfl
  | ok s' => exact Or.inr rfl

/-- C8: approve-scoped and approve-all calls whose supplied expiration is
already expired fail with an `Expired` error and store nothing: the
committed state is the pre-call state, both approval stores included. -/
theorem approve_expired_rejected (env : Env) (info : MessageInfo) (op : Addr)
    (tid : TokenId) (amt? : Option Nat) (exp : Expiration) (s : State)
    (h : exp.is_expired env.block = true) :
    approve_token env info op tid amt? (some exp) s = .error .expired ∧
      approve_all env info op (some exp) s = .error .expired ∧
      execCommit env info (.approveM op tid amt? (some exp)) s = s ∧
      execCommit env info (.approveAllM op (some exp)) s = s := by
  have h1 : approve_token env info op tid amt? (some exp) s = .error .expired := by
    simp [approve_token, h]
  have h2 : approve_all env info op (some exp) s = .error .expired := by
    simp [approve_all, h]
  refine ⟨h1, h2, ?_, ?_⟩
  · simp [execCommit, executeS, h1, Except.map]
  · simp [execCommit, executeS, h2, Except.map]

/-- Witness for C8 at a concrete expired height. -/
theorem approve_expired_rejected_witness :
    approve_token ⟨⟨5, 50⟩⟩ ⟨"o"⟩ "p" "t" none (some (.atHeight 3)) initState =
        .error .expired ∧
      approve_all ⟨⟨5, 50⟩⟩ ⟨"o"⟩ "p" (some (.atHeight 3)) initState =
        .error .expired ∧
      execCommit ⟨⟨5, 50⟩⟩ ⟨"o"⟩ (.approveM "p" "t" none (some (.atHeight 3)))
          initState = initState ∧
      execCommit ⟨⟨5, 50⟩⟩ ⟨"o"⟩ (.approveAllM "p" (some (.atHeight 3)))
          initState = initState :=
  approve_expired_rejected ⟨⟨5, 50⟩⟩ ⟨"o"⟩ "p" "t" none (.atHeight 3) initState
    (by decide)

/-- C3 counterexample: with no balance record for ("o","t") the owner
themself — an authorized caller — gets a typed not-found error from
`verify_approval`, not the authorized amount zero the claim asserts. -/
theorem verify_approval_missing_balance_cex :
    verify_approval initState ⟨⟨0, 0⟩⟩ ⟨"o"⟩ "o" "t" 7 = .error .stdNotFound ∧
      (Except.error Err.stdNotFound : Except Err TokenAmount) ≠
        .ok ⟨"t", 0⟩ := by decide

/-- C3 (amended): when the owner has no balance record for the token-type,
`verify_approval` fails with the typed `StdError::NotFound` of
`balances.load` — for every caller, owner and approved operators included —
rather than authorizing an amount of zero. -/
theorem verify_approval_missing_balance (s : State) (env : Env)
    (info : MessageInfo) (owner : Addr) (tid : TokenId) (amt : Nat)
    (h : getKey s.balances (owner, tid) = none) :
    verify_approval s env info owner tid amt = .error .stdNotFound := by
  simp [verify_approval, h]

/-- Witness for the amended C3 at a concrete state. -/
theorem verify_approval_missing_balance_witness :
    verify_approval initState ⟨⟨0, 0⟩⟩ ⟨"p"⟩ "o" "t" 7 = .error .stdNotFound :=
  verify_approval_missing_balance initState ⟨⟨0, 0⟩⟩ ⟨"p"⟩ "o" "t" 7 (by decide)

/-- C7 counterexample: a debit against an owner with no balance record makes
`update_balances` abort with a Rust panic (`Option::unwrap` on `None` inside
the `balances.update` closure), which is not the typed NotFound error the
claim asserts. -/
theorem update_balances_missing_record_cex :
    update_balances ⟨⟨0, 0⟩⟩ (some "a") (some "b") [⟨"t", 5⟩] initState =
        .error .crash ∧
      Err.crash ≠ Err.stdNotFound := by decide

/-- C7 (amended): when `from` has no balance record for some entry's
token-type, `update_balances` aborts with a panic (`unwrap` on `None`), not
a typed NotFound result; the typed NotFound for a missing balance is
produced earlier by `verify_approval` on the paths that reach this code. -/
theorem update_balances_missing_record (env : Env) (f : Addr)
    (to? : Option Addr) (tid : TokenId) (a : Nat) (rest : List TokenAmount)
    (s : State) (h : getKey s.balances (f, tid) = none) :
    update_balances env (some f) to? (⟨tid, a⟩ :: rest) s = .error .crash := by
  have hd : debitAll f (⟨tid, a⟩ :: rest) s = .error .crash := by
    rw [debitAll, h]
  cases to? <;> simp [update_balances, hd, bind, Except.bind]

/-- Witness for the amended C7 at a concrete state. -/
theorem update_balances_missing_record_witness :
    update_balances ⟨⟨0, 0⟩⟩ (some "o") none [⟨"t", 4⟩] initState =
      .error .crash :=
  update_balances_missing_record ⟨⟨0, 0⟩⟩ "o" none "t" 4 [] initState (by decide)

/-- C6: a debit whose entry amount exceeds the existing balance record fails
with the typed overflow (checked-subtraction underflow) error rather than
wrapping; conversely a successful call implies the entry amount was at most
the recorded balance, so the stored quantity is the true difference and
never the result of a wrap. -/
theorem debit_insufficient_balance (env : Env) (f : Addr) (to? : Option Addr)
    (tid : TokenId) (a : Nat) (rest : List TokenAmount) (s : State) (b : Nat)
    (hb : getKey s.balances (f, tid) = some b) :
    (b < a →
      update_balances env (some f) to? (⟨tid, a⟩ :: rest) s = .error .overflow) ∧
    (∀ s' ev, update_balances env (some f) to? (⟨tid, a⟩ :: rest) s = .ok (s', ev) →
      a ≤ b) := by
  have key : b < a →
      update_balances env (some f) to? (⟨tid, a⟩ :: rest) s = .error .overflow := by
    intro hlt
    have hd : debitAll f (⟨tid, a⟩ :: rest) s = .error .overflow := by
      rw [debitAll, hb]
      simp [hlt]
    cases to? <;> simp [update_balances, hd, bind, Except.bind]
  refine ⟨key, fun s' ev h => ?_⟩
  by_contra hab
  have hba : b < a := by omega
  rw [key hba] at h
  exact absurd h (by simp)

/-- Witness for C6: balance 2, debit 5 fails with the overflow error. -/
theorem debit_insufficient_balance_witness :
    update_balances ⟨⟨0, 0⟩⟩ (some "o") none [⟨"t", 5⟩]
        { balances := [(("o", "t"), 2)], token_approves := [], approves := [],
          supply := [("t", 2)] } = .error .overflow :=
  (debit_insufficient_balance ⟨⟨0, 0⟩⟩ "o" none "t" 5 []
      { balances := [(("o", "t"), 2)], token_approves := [], approves := [],
        supply := [("t", 2)] } 2 (by decide)).1 (by decide)

/-- C9: revoke-scoped fails with a typed not-found error when no scoped
approval exists for (tokenType, sender, operator); otherwise the revoke
amount is min(requested or unbounded, existing amount), the record is
deleted exactly when the revoke amount equals the existing amount — so a
full revoke leaves no approval to query — and is decremented by the revoke
amount otherwise. -/
theorem revoke_token_spec (env : Env) (info : MessageInfo) (op : Addr)
    (tid : TokenId) (amt? : Option Nat) (s : State) :
    (getKey s.token_approves (tid, info.sender, op) = none →
      revoke_token env info op tid amt? s = .error .stdNotFound) ∧
    (∀ prev, getKey s.token_approves (tid, info.sender, op) = some prev →
      (min (amt?.getD UMAX) prev.amount = prev.amount →
        (revoke_token env info op tid amt? s).map
            (fun r => (getKey r.1.token_approves (tid, info.sender, op), r.2)) =
          .ok (none, .revokeEv info.sender op tid prev.amount)) ∧
      (min (amt?.getD UMAX) prev.amount ≠ prev.amount →
        (revoke_token env info op tid amt? s).map
            (fun r => (getKey r.1.token_approves (tid, info.sender, op), r.2)) =
          .ok (some ⟨prev.amount - min (amt?.getD UMAX) prev.amount,
                     prev.expiration⟩,
               .revokeEv info.sender op tid
                 (min (amt?.getD UMAX) prev.amount)))) := by
  refine ⟨fun h => by simp [revoke_token, h], fun prev hg => ⟨fun he => ?_, fun hne => ?_⟩⟩
  · simp [revoke_token, hg, he, Except.map, getKey_removeKey]
  · simp [revoke_token, hg, hne, Except.map, getKey_setKey]

/-- Witness for C9: a full revoke of an existing approval of 4 deletes the
record, and the later lookup finds nothing. -/
theorem revoke_token_spec_witness :
    (revoke_token ⟨⟨0, 0⟩⟩ ⟨"o"⟩ "p" "t" none
        { balances := [(("o", "t"), 9)],
          token_approves := [(("t", "o", "p"), ⟨4, .never⟩)],
          approves := [], supply := [("t", 9)] }).map
      (fun r => (getKey r.1.token_approves ("t", "o", "p"), r.2)) =
    .ok (none, .revokeEv "o" "p" "t" 4) :=
  ((revoke_token_spec ⟨⟨0, 0⟩⟩ ⟨"o"⟩ "p" "t" none
      { balances := [(("o", "t"), 9)],
        token_approves := [(("t", "o", "p"), ⟨4, .never⟩)],
        approves := [], supply := [("t", 9)] }).2
    ⟨4, .never⟩ (by decide)).1 (by decide)

theorem verify_all_approval_iff (s : State) (env : Env) (owner op : Addr) :
    verify_all_approval s env owner op = true ↔
      ∃ ex, getKey s.approves (owner, op) = some ex ∧
        ex.is_expired env.block = false := by
  unfold verify_all_approval
  cases h : getKey s.approves (owner, op) with
  | none => simp
  | some ex => simp [h]

/-- C2: with a balance record present, `verify_approval` authorizes the
owner themself or a holder of an unexpired blanket approval for the amount
min(balance, requested) — no amount ceiling from the blanket approval —,
authorizes a holder of an unexpired scoped approval for that amount further
capped at the approval's amount, and fails with Unauthorized otherwise. -/
theorem verify_approval_spec (s : State) (env : Env) (info : MessageInfo)
    (owner : Addr) (tid : TokenId) (amt : Nat) (bal : Nat)
    (hb : getKey s.balances (owner, tid) = some bal) :
    ((owner = info.sender ∨
        (∃ ex, getKey s.approves (owner, info.sender) = some ex ∧
          ex.is_expired env.block = false)) →
      verify_approval s env info owner tid amt = .ok ⟨tid, min bal amt⟩) ∧
    (¬(owner = info.sender ∨
        (∃ ex, getKey s.approves (owner, info.sender) = some ex ∧
          ex.is_expired env.block = false)) →
      ∀ ap, getKey s.token_approves (tid, owner, info.sender) = some ap →
        ap.is_expired env = false →
        verify_approval s env info owner tid amt =
          .ok ⟨tid, min (min bal amt) ap.amount⟩) ∧
    (¬(owner = info.sender ∨
        (∃ ex, getKey s.approves (owner, info.sender) = some ex ∧
          ex.is_expired env.block = false)) →
      (∀ ap, getKey s.token_approves (tid, owner, info.sender) = some ap →
        ap.is_expired env = true) →
      verify_approval s env info owner tid amt = .error .unauthorized) := by
  have hBiff : (owner = info.sender ∨
      verify_all_approval s env owner info.sender = true) ↔
      (owner = info.sender ∨
        (∃ ex, getKey s.approves (owner, info.sender) = some ex ∧
          ex.is_expired env.block = false)) :=
    or_congr Iff.rfl (verify_all_approval_iff s env owner info.sender)
  refine ⟨fun hcond => ?_, fun hncond ap hap hexp => ?_, fun hncond hexp => ?_⟩
  · have hc := hBiff.mpr hcond
    simp only [verify_approval, hb]
    rw [if_pos (by simpa using hc)]
  · have hnc : ¬(owner = info.sender ∨
        verify_all_approval s env owner info.sender = true) := fun hc =>
      hncond (hBiff.mp hc)
    have hact : get_active_token_approval s env owner info.sender tid = some ap := by
      simp [get_active_token_approval, hap, hexp]
    simp only [verify_approval, hb]
    rw [if_neg (by simpa using hnc), hact]
  · have hnc : ¬(owner = info.sender ∨
        verify_all_approval s env owner info.sender = true) := fun hc =>
      hncond (hBiff.mp hc)
    have hact : get_active_token_approval s env owner info.sender tid = none := by
      unfold get_active_token_approval
      cases hg : getKey s.token_approves (tid, owner, info.sender) with
      | none => rfl
      | some ap => simp [hexp ap hg]
    simp only [verify_approval, hb]
    rw [if_neg (by simpa using hnc), hact]

/-- Witness for C2: the owner moves their own balance, capped at it. -/
theorem verify_approval_spec_witness :
    verify_approval
        { balances := [(("o", "t"), 5)], token_approves := [], approves := [],
          supply := [("t", 5)] }
        ⟨⟨0, 0⟩⟩ ⟨"o"⟩ "o" "t" 7 = .ok ⟨"t", 5⟩ := by
  have h := (verify_approval_spec
      { balances := [(("o", "t"), 5)], token_approves := [], approves := [],
        supply := [("t", 5)] }
      ⟨⟨0, 0⟩⟩ ⟨"o"⟩ "o" "t" 7 5 (by decide)).1 (Or.inl rfl)
  simpa using h


theorem getKey_pruneEntry_none (env : Env) (f : Addr) (tid : TokenId) (a : Nat)
    (k : TokenId × Addr × Addr) :
    ∀ (st : List ((TokenId × Addr × Addr) × TokenApproval)),
    getKey st k = none → getKey (pruneEntry env f tid a st) k = none
  | [], _ => by simp [pruneEntry, getKey]
  | q :: rest, h => by
    rw [getKey] at h
    split at h
    · exact absurd h (by simp)
    · rename_i hk
      have ih := getKey_pruneEntry_none env f tid a k rest h
      by_cases hc : q.1.1 = tid ∧ q.1.2.1 = f
      · by_cases hd : q.2.is_expired env = true ∨ q.2.amount ≤ a
        · simpa [pruneEntry, List.filterMap_cons, hc, hd] using ih
        · simpa [pruneEntry, List.filterMap_cons, hc, hd, getKey, hk] using ih
      · simpa [pruneEntry, List.filterMap_cons, hc, getKey, hk] using ih

theorem getKey_pruneEntry {st : List ((TokenId × Addr × Addr) × TokenApproval)}
    (hn : NodupKeys st) (env : Env) (f : Addr) (tid : TokenId) (a : Nat)
    (op : Addr) :
    getKey (pruneEntry env f tid a st) (tid, f, op) =
      match getKey st (tid, f, op) with
      | none => none
      | some ap =>
        if ap.is_expired env = true ∨ ap.amount ≤ a then none
        else some ⟨ap.amount - a, ap.expiration⟩ := by
  induction st with
  | nil => simp [pruneEntry, getKey]
  | cons q rest ih =>
    simp only [NodupKeys, List.map_cons, List.nodup_cons] at hn
    have ihr := ih hn.2
    by_cases hqk : q.1 = (tid, f, op)
    · have hc : q.1.1 = tid ∧ q.1.2.1 = f := by rw [hqk]; exact ⟨rfl, rfl⟩
      have hrest : getKey rest (tid, f, op) = none :=
        getKey_eq_none_of_not_mem (hqk ▸ hn.1)
      by_cases hd : q.2.is_expired env = true ∨ q.2.amount ≤ a
      · have hpn := getKey_pruneEntry_none env f tid a (tid, f, op) rest hrest
        simpa [pruneEntry, List.filterMap_cons, hc, hd, getKey, hqk] using hpn
      · simp [pruneEntry, List.filterMap_cons, hc, hd, getKey, hqk]
    · by_cases hc : q.1.1 = tid ∧ q.1.2.1 = f
      · by_cases hd : q.2.is_expired env = true ∨ q.2.amount ≤ a
        · simpa [pruneEntry, List.filterMap_cons, hc, hd, getKey, hqk] using ihr
        · simpa [pruneEntry, List.filterMap_cons, hc, hd, getKey, hqk] using ihr
      · simpa [pruneEntry, List.filterMap_cons, hc, getKey, hqk] using ihr

theorem update_balances_token_approves (env : Env) (f : Addr)
    (to? : Option Addr) (tokens : List TokenAmount) (s s' : State)
    (ev : LedgerEvent)
    (h : update_balances env (some f) to? tokens s = .ok (s', ev)) :
    s'.token_approves =
      tokens.foldl (fun st e => pruneEntry env f e.token_id e.amount st)
        s.token_approves := by
  cases to? with
  | some t =>
    obtain ⟨s₁, s₂, hd, hc, hp, _⟩ :=
      update_balances_transfer_shape env f t tokens s s' ev h
    have d := (debitAll_ok f tokens s s₁ hd).1
    have c := (creditAll_ok t tokens s₁ s₂ hc).1
    have p := (pruneSupply_ok env f false tokens s₂ s' hp).2.2.1
    rw [p, c, d]
  | none =>
    obtain ⟨s₁, hd, hp, _⟩ := update_balances_burn_shape env f tokens s s' ev h
    have d := (debitAll_ok f tokens s s₁ hd).1
    have p := (pruneSupply_ok env f true tokens s₁ s' hp).2.2.1
    rw [p, d]

/-- C1: a successful `update_balances` with `from` present rewrites the
scoped-approval store as the left fold, over the batch entries in order, of
the per-entry pruning pass; and one pruning pass for an entry
(tokenType, amount) treats the approval of *every* operator keyed
(tokenType, from, operator) the same way: it deletes the approval when it
is expired or its amount is at most the entry amount, and otherwise
decrements its amount by exactly the entry amount and keeps it. -/
theorem update_balances_prunes_every_operator (env : Env) (f : Addr)
    (to? : Option Addr) (tokens : List TokenAmount) (s s' : State)
    (ev : LedgerEvent)
    (h : update_balances env (some f) to? tokens s = .ok (s', ev)) :
    s'.token_approves =
      tokens.foldl (fun st e => pruneEntry env f e.token_id e.amount st)
        s.token_approves ∧
    ∀ (st : List ((TokenId × Addr × Addr) × TokenApproval)), NodupKeys st →
      ∀ (tid : TokenId) (a : Nat) (op : Addr) (ap : TokenApproval),
        getKey st (tid, f, op) = some ap →
        getKey (pruneEntry env f tid a st) (tid, f, op) =
          if ap.is_expired env = true ∨ ap.amount ≤ a then none
          else some ⟨ap.amount - a, ap.expiration⟩ := by
  refine ⟨update_balances_token_approves env f to? tokens s s' ev h,
    fun st hn tid a op ap hap => ?_⟩
  rw [getKey_pruneEntry hn env f tid a op, hap]

/-- Witness for C1: a transfer of 5 prunes three operators' approvals of
token "t" at once — 4 ≤ 5 is deleted, the expired one is deleted, 9 > 5 is
decremented to 4 — and the per-entry pass sends operator "q" (who did not
initiate anything) from 9 to 4. -/
theorem update_balances_prunes_every_operator_witness :
    update_balances ⟨⟨5, 50⟩⟩ (some "o") (some "x") [⟨"t", 5⟩]
        { balances := [(("o", "t"), 10)],
          token_approves := [(("t", "o", "p"), ⟨4, .never⟩),
                             (("t", "o", "q"), ⟨9, .never⟩),
                             (("t", "o", "r"), ⟨5, .atHeight 3⟩)],
          approves := [], supply := [("t", 10)] } =
      .ok ({ balances := [(("x", "t"), 5), (("o", "t"), 5)],
             token_approves := [(("t", "o", "q"), ⟨4, .never⟩)],
             approves := [], supply := [("t", 10)] },
           .transfer "o" "x" [⟨"t", 5⟩]) ∧
    getKey (pruneEntry ⟨⟨5, 50⟩⟩ "o" "t" 5
        [(("t", "o", "p"), ⟨4, .never⟩), (("t", "o", "q"), ⟨9, .never⟩),
         (("t", "o", "r"), ⟨5, .atHeight 3⟩)]) ("t", "o", "q") =
      some ⟨4, .never⟩ := by
  constructor
  · decide
  · have h := (update_balances_prunes_every_operator ⟨⟨5, 50⟩⟩ "o" (some "x")
        [⟨"t", 5⟩]
        { balances := [(("o", "t"), 10)],
          token_approves := [(("t", "o", "p"), ⟨4, .never⟩),
                             (("t", "o", "q"), ⟨9, .never⟩),
                             (("t", "o", "r"), ⟨5, .atHeight 3⟩)],
          approves := [], supply := [("t", 10)] }
        { balances := [(("x", "t"), 5), (("o", "t"), 5)],
          token_approves := [(("t", "o", "q"), ⟨4, .never⟩)],
          approves := [], supply := [("t", 10)] }
        (.transfer "o" "x" [⟨"t", 5⟩]) (by decide)).2
      [(("t", "o", "p"), ⟨4, .never⟩), (("t", "o", "q"), ⟨9, .never⟩),
       (("t", "o", "r"), ⟨5, .atHeight 3⟩)] (by decide)
      "t" 5 "q" ⟨9, .never⟩ (by decide)
    simpa using h

theorem debitAll_single (f : Addr) (tid : TokenId) (a : Nat) (s s₁ : State)
    (b : Nat) (hb : getKey s.balances (f, tid) = some b)
    (h : debitAll f [⟨tid, a⟩] s = .ok s₁) :
    a ≤ b ∧ s₁ = { s with balances := setKey s.balances (f, tid) (b - a) } := by
  rw [debitAll] at h
  split at h
  · simp at h
  · rename_i b' hg
    rw [hb] at hg
    obtain rfl : b' = b := by injection hg with hg'; rw [hg']
    split at h
    · simp at h
    · rename_i hba
      rw [debitAll] at h
      simp only [Except.ok.injEq] at h
      exact ⟨by omega, h.symm⟩

theorem creditAll_single (t : Addr) (tid : TokenId) (a : Nat) (s s₂ : State)
    (h : creditAll t [⟨tid, a⟩] s = .ok s₂) :
    s₂ = { s with
           balances := setKey s.balances (t, tid)
             ((getKey s.balances (t, tid)).getD 0 + a) } := by
  rw [creditAll] at h
  split at h
  · simp at h
  · rw [creditAll] at h
    simp only [Except.ok.injEq] at h
    exact h.symm

/-- C10: a single-token `send` with a payload whose authorized amount was
capped below the requested amount still notifies the recipient with the
*original* requested amount, while the balances move only by the smaller
authorized amount. -/
theorem send_reports_requested_amount (env : Env) (info : MessageInfo)
    (from? : Option Addr) (rcpt : Addr) (tid : TokenId) (amt : Nat) (m : String)
    (s s' : State) (ev : LedgerEvent) (msgs : List Cw1155ReceiveMsg)
    (bu : TokenAmount) (b : Nat)
    (hv : verify_approval s env info (from?.getD info.sender) tid amt = .ok bu)
    (hlt : bu.amount < amt)
    (hb : getKey s.balances (from?.getD info.sender, tid) = some b)
    (hne : from?.getD info.sender ≠ rcpt)
    (h : send env info from? rcpt tid amt (some m) s = .ok (s', ev, msgs)) :
    msgs = [⟨info.sender, some (from?.getD info.sender), amt, tid, m⟩] ∧
    getKey s'.balances (from?.getD info.sender, tid) = some (b - bu.amount) ∧
    getKey s'.balances (rcpt, tid) =
      some ((getKey s.balances (rcpt, tid)).getD 0 + bu.amount) ∧
    bu.amount < amt := by
  simp only [send.eq_def] at h
  rw [hv] at h
  simp only [bind, Except.bind] at h
  cases hub : update_balances env (some (from?.getD info.sender)) (some rcpt)
      [⟨tid, bu.amount⟩] s with
  | error e => rw [hub] at h; simp at h
  | ok p =>
    rw [hub] at h
    obtain ⟨st, ev'⟩ := p
    simp only [Except.ok.injEq, Prod.mk.injEq] at h
    obtain ⟨hs', hev, hmsgs⟩ := h
    obtain ⟨s₁, s₂, hd, hc, hp, _⟩ :=
      update_balances_transfer_shape env (from?.getD info.sender) rcpt
        [⟨tid, bu.amount⟩] s st ev' hub
    obtain ⟨hab, hs₁⟩ := debitAll_single (from?.getD info.sender) tid bu.amount
      s s₁ b hb hd
    have hs₂ := creditAll_single rcpt tid bu.amount s₁ s₂ hc
    have hbal : st.balances = s₂.balances :=
      (pruneSupply_ok env (from?.getD info.sender) false [⟨tid, bu.amount⟩]
        s₂ st hp).1
    have hkey : ((from?.getD info.sender, tid) : Addr × TokenId) ≠ (rcpt, tid) := by
      intro hcon
      exact hne (congrArg Prod.fst hcon)
    subst hs'
    refine ⟨hmsgs.symm, ?_, ?_, hlt⟩
    · rw [hbal, hs₂, hs₁]
      simp only
      rw [getKey_setKey]
      rw [if_neg (Ne.symm hkey)]
      rw [getKey_setKey, if_pos rfl]
    · rw [hbal, hs₂, hs₁]
      simp only
      rw [getKey_setKey, if_pos rfl]
      rw [getKey_setKey, if_neg hkey]

/-- Witness for C10: a scoped approval of 5 caps a requested send of 8 down
to 5 — the owner keeps 5 of their 10 and the recipient gets 5 — while the
outbound receive message still reports 8. -/
theorem send_reports_requested_amount_witness :
    send ⟨⟨0, 0⟩⟩ ⟨"p"⟩ (some "o") "x" "t" 8 (some "payload")
        { balances := [(("o", "t"), 10)],
          token_approves := [(("t", "o", "p"), ⟨5, .never⟩)],
          approves := [], supply := [("t", 10)] } =
      .ok ({ balances := [(("x", "t"), 5), (("o", "t"), 5)],
             token_approves := [], approves := [], supply := [("t", 10)] },
           .transfer "o" "x" [⟨"t", 5⟩],
           [⟨"p", some "o", 8, "t", "payload"⟩]) ∧
    [(⟨"p", some "o", 8, "t", "payload"⟩ : Cw1155ReceiveMsg)] =
      [⟨"p", some "o", 8, "t", "payload"⟩] ∧
    getKey [(("x", "t"), 5), (("o", "t"), 5)] (("o" : Addr), ("t" : TokenId)) =
      some (10 - 5) := by
  refine ⟨by decide, ?_, ?_⟩
  · exact (send_reports_requested_amount ⟨⟨0, 0⟩⟩ ⟨"p"⟩ (some "o") "x" "t" 8
      "payload"
      { balances := [(("o", "t"), 10)],
        token_approves := [(("t", "o", "p"), ⟨5, .never⟩)],
        approves := [], supply := [("t", 10)] }
      { balances := [(("x", "t"), 5), (("o", "t"), 5)],
        token_approves := [], approves := [], supply := [("t", 10)] }
      (.transfer "o" "x" [⟨"t", 5⟩]) [⟨"p", some "o", 8, "t", "payload"⟩]
      ⟨"t", 5⟩ 10 (by decide) (by decide) (by decide) (by decide) (by decide)).1
  · exact (send_reports_requested_amount ⟨⟨0, 0⟩⟩ ⟨"p"⟩ (some "o") "x" "t" 8
      "payload"
      { balances := [(("o", "t"), 10)],
        token_approves := [(("t", "o", "p"), ⟨5, .never⟩)],
        approves := [], supply := [("t", 10)] }
      { balances := [(("x", "t"), 5), (("o", "t"), 5)],
        token_approves := [], approves := [], supply := [("t", 10)] }
      (.transfer "o" "x" [⟨"t", 5⟩]) [⟨"p", some "o", 8, "t", "payload"⟩]
      ⟨"t", 5⟩ 10 (by decide) (by decide) (by decide) (by decide) (by decide)).2.1

end Cw1155
